import Mathlib

/-!
Verification of the quantum gate state-vector simulator in
`quantum_decision/quantum_gates.py` (class `QuantumGates`).

Scalars: every constant appearing in the fixed gate library (1, i,
1/sqrt 2, exp(i pi/4)) lies in the 8th cyclotomic field Q(zeta) with
zeta = exp(i pi/4) and zeta^4 = -1.  We embed the complex amplitudes
exactly as elements of this field, represented as quadruples of rationals
(coordinates in the basis 1, zeta, zeta^2, zeta^3).  The Python code
computes with complex64 floats; the claims speak about exact arithmetic
("within floating tolerance; exactly, over exact arithmetic"), which this
embedding realises.

States: torch tensors are dynamically shaped, and `torch.matmul` raises a
RuntimeError when the inner dimensions disagree.  We therefore embed a
quantum state as a `List K8` and matrix application as a
dimension-checked operation returning `Except PyError`.
-/

/-- An element `c0 + c1*zeta + c2*zeta^2 + c3*zeta^3` of the cyclotomic
field Q(zeta), zeta = exp(i*pi/4), so that zeta^4 = -1. -/
@[ext]
structure K8 where
  c0 : ℚ
  c1 : ℚ
  c2 : ℚ
  c3 : ℚ
deriving DecidableEq

namespace K8

instance : Zero K8 := ⟨⟨0, 0, 0, 0⟩⟩
instance : One K8 := ⟨⟨1, 0, 0, 0⟩⟩
instance : Add K8 := ⟨fun x y => ⟨x.c0 + y.c0, x.c1 + y.c1, x.c2 + y.c2, x.c3 + y.c3⟩⟩
instance : Neg K8 := ⟨fun x => ⟨-x.c0, -x.c1, -x.c2, -x.c3⟩⟩

/-- Multiplication: polynomial product reduced by `zeta^4 = -1`. -/
instance : Mul K8 :=
  ⟨fun x y =>
    ⟨x.c0 * y.c0 - x.c1 * y.c3 - x.c2 * y.c2 - x.c3 * y.c1,
     x.c0 * y.c1 + x.c1 * y.c0 - x.c2 * y.c3 - x.c3 * y.c2,
     x.c0 * y.c2 + x.c1 * y.c1 + x.c2 * y.c0 - x.c3 * y.c3,
     x.c0 * y.c3 + x.c1 * y.c2 + x.c2 * y.c1 + x.c3 * y.c0⟩⟩

@[simp] theorem zero_c0 : (0 : K8).c0 = 0 := rfl
@[simp] theorem zero_c1 : (0 : K8).c1 = 0 := rfl
@[simp] theorem zero_c2 : (0 : K8).c2 = 0 := rfl
@[simp] theorem zero_c3 : (0 : K8).c3 = 0 := rfl
@[simp] theorem one_c0 : (1 : K8).c0 = 1 := rfl
@[simp] theorem one_c1 : (1 : K8).c1 = 0 := rfl
@[simp] theorem one_c2 : (1 : K8).c2 = 0 := rfl
@[simp] theorem one_c3 : (1 : K8).c3 = 0 := rfl
@[simp] theorem add_c0 (x y : K8) : (x + y).c0 = x.c0 + y.c0 := rfl
@[simp] theorem add_c1 (x y : K8) : (x + y).c1 = x.c1 + y.c1 := rfl
@[simp] theorem add_c2 (x y : K8) : (x + y).c2 = x.c2 + y.c2 := rfl
@[simp] theorem add_c3 (x y : K8) : (x + y).c3 = x.c3 + y.c3 := rfl
@[simp] theorem neg_c0 (x : K8) : (-x).c0 = -x.c0 := rfl
@[simp] theorem neg_c1 (x : K8) : (-x).c1 = -x.c1 := rfl
@[simp] theorem neg_c2 (x : K8) : (-x).c2 = -x.c2 := rfl
@[simp] theorem neg_c3 (x : K8) : (-x).c3 = -x.c3 := rfl
@[simp] theorem mul_c0 (x y : K8) :
    (x * y).c0 = x.c0 * y.c0 - x.c1 * y.c3 - x.c2 * y.c2 - x.c3 * y.c1 := rfl
@[simp] theorem mul_c1 (x y : K8) :
    (x * y).c1 = x.c0 * y.c1 + x.c1 * y.c0 - x.c2 * y.c3 - x.c3 * y.c2 := rfl
@[simp] theorem mul_c2 (x y : K8) :
    (x * y).c2 = x.c0 * y.c2 + x.c1 * y.c1 + x.c2 * y.c0 - x.c3 * y.c3 := rfl
@[simp] theorem mul_c3 (x y : K8) :
    (x * y).c3 = x.c0 * y.c3 + x.c1 * y.c2 + x.c2 * y.c1 + x.c3 * y.c0 := rfl

instance addCommGroup : AddCommGroup K8 := by
  refine
    { add := (· + ·)
      zero := (0 : K8)
      neg := Neg.neg
      nsmul := @nsmulRec K8 ⟨0⟩ ⟨(· + ·)⟩
      zsmul := @zsmulRec K8 ⟨0⟩ ⟨(· + ·)⟩ ⟨Neg.neg⟩ (@nsmulRec K8 ⟨0⟩ ⟨(· + ·)⟩)
      add_assoc := ?_
      zero_add := ?_
      add_zero := ?_
      add_comm := ?_
      neg_add_cancel := ?_ } <;>
  intros <;> ext <;> simp <;> ring

def natCastK (n : ℕ) : K8 := ⟨(n : ℚ), 0, 0, 0⟩

def intCastK (z : ℤ) : K8 := ⟨(z : ℚ), 0, 0, 0⟩

theorem natCastK_zero : natCastK 0 = 0 := by ext <;> simp [natCastK]

theorem natCastK_succ (n : ℕ) : natCastK (n + 1) = natCastK n + 1 := by
  ext <;> simp [natCastK]

theorem intCastK_ofNat (n : ℕ) : intCastK (Int.ofNat n) = natCastK n := by
  ext <;> simp [intCastK, natCastK]

theorem intCastK_negSucc (n : ℕ) : intCastK (Int.negSucc n) = -natCastK (n + 1) := by
  ext <;> simp [intCastK, natCastK, Int.negSucc_eq]

instance addGroupWithOne : AddGroupWithOne K8 :=
  { K8.addCommGroup with
    natCast := natCastK
    intCast := intCastK
    one := 1
    natCast_zero := natCastK_zero
    natCast_succ := natCastK_succ
    intCast_ofNat := intCastK_ofNat
    intCast_negSucc := intCastK_negSucc }

instance commRing : CommRing K8 := by
  refine
    { K8.addGroupWithOne with
      mul := (· * ·)
      npow := @npowRec K8 ⟨1⟩ ⟨(· * ·)⟩
      add_comm := ?_
      left_distrib := ?_
      right_distrib := ?_
      zero_mul := ?_
      mul_zero := ?_
      mul_assoc := ?_
      one_mul := ?_
      mul_one := ?_
      mul_comm := ?_ } <;>
  intros <;> ext <;> simp <;> ring

@[simp] theorem natCast_c0 (n : ℕ) : (n : K8).c0 = (n : ℚ) := rfl
@[simp] theorem natCast_c1 (n : ℕ) : (n : K8).c1 = 0 := rfl
@[simp] theorem natCast_c2 (n : ℕ) : (n : K8).c2 = 0 := rfl
@[simp] theorem natCast_c3 (n : ℕ) : (n : K8).c3 = 0 := rfl

/-- Complex conjugation: `zeta` maps to `zeta⁻¹ = -zeta^3`. -/
def conjK (x : K8) : K8 := ⟨x.c0, -x.c3, -x.c2, -x.c1⟩

@[simp] theorem conjK_c0 (x : K8) : (conjK x).c0 = x.c0 := rfl
@[simp] theorem conjK_c1 (x : K8) : (conjK x).c1 = -x.c3 := rfl
@[simp] theorem conjK_c2 (x : K8) : (conjK x).c2 = -x.c2 := rfl
@[simp] theorem conjK_c3 (x : K8) : (conjK x).c3 = -x.c1 := rfl

@[simp] theorem conjK_zero : conjK 0 = 0 := by ext <;> simp

@[simp] theorem conjK_one : conjK 1 = 1 := by ext <;> simp

instance : StarRing K8 where
  star := conjK
  star_involutive x := by ext <;> simp
  star_mul x y := by ext <;> simp <;> ring
  star_add x y := by ext <;> simp <;> ring

@[simp] theorem star_def (x : K8) : star x = conjK x := rfl

/-- The imaginary unit `i = zeta^2`. -/
def iK : K8 := ⟨0, 0, 1, 0⟩

/-- `zeta = exp(i*pi/4)` itself. -/
def zetaK : K8 := ⟨0, 1, 0, 0⟩

/-- `1 / sqrt 2 = sqrt 2 / 2`. -/
def invSqrt2 : K8 := ⟨0, 1/2, 0, -1/2⟩

/-- Embedding of the rationals. -/
def ratK (q : ℚ) : K8 := ⟨q, 0, 0, 0⟩

@[simp] theorem ratK_c0 (q : ℚ) : (ratK q).c0 = q := rfl
@[simp] theorem ratK_c1 (q : ℚ) : (ratK q).c1 = 0 := rfl
@[simp] theorem ratK_c2 (q : ℚ) : (ratK q).c2 = 0 := rfl
@[simp] theorem ratK_c3 (q : ℚ) : (ratK q).c3 = 0 := rfl

theorem ratK_mul (p q : ℚ) : ratK (p * q) = ratK p * ratK q := by
  ext <;> simp

theorem ratK_one : ratK 1 = 1 := by ext <;> simp

theorem star_ratK (q : ℚ) : star (ratK q) = ratK q := by ext <;> simp

theorem natCast_eq_ratK (n : ℕ) : (n : K8) = ratK (n : ℚ) := by ext <;> simp

example : iK * iK = -1 := by ext <;> simp [iK]
example : (⟨0, 1, 0, -1⟩ : K8) * invSqrt2 = 1 := by ext <;> simp [invSqrt2] <;> norm_num
example : zetaK * zetaK = iK := by ext <;> simp [zetaK, iK]
example : star iK = -iK := by ext <;> simp [iK]

end K8

/-- Python exceptions relevant to the simulator: `ValueError` raised
explicitly by the code, and `RuntimeError` raised by torch primitives. -/
inductive PyError where
  | valueError (msg : String)
  | runtimeError (msg : String)
deriving DecidableEq

/-- View a list of known length as a vector. -/
def asFn {m : ℕ} (s : List K8) (h : s.length = m) : Fin m → K8 :=
  fun i => s.get (Fin.cast h.symm i)

/-- `torch.matmul(state, M)` for a state vector (row-vector convention):
checks that the inner dimensions agree and otherwise raises the torch
shape-mismatch RuntimeError, exactly as `torch.matmul` does on
dynamically shaped tensors.  (The `.view(1, -1)` reshapes performed by
the Python code turn the length-n vector into a 1 by n matrix; the
multiplication and its dimension requirement are unchanged.) -/
def torchMatmul {m k : ℕ} (s : List K8) (M : Matrix (Fin m) (Fin k) K8) :
    Except PyError (List K8) :=
  if h : s.length = m then
    .ok (List.ofFn (fun j : Fin k => Matrix.vecMul (asFn s h) M j))
  else
    .error (.runtimeError "mat1 and mat2 shapes cannot be multiplied")

/-- `torch.kron` for square matrices, in row-major block layout:
entry `(i1*n + i2, j1*n + j2)` is `A i1 j1 * B i2 j2`, which is the
`finProdFinEquiv` reindexing of the Kronecker product (that equivalence
sends `(i1, i2)` to `i2 + n * i1`). -/
def kronFin {m n : ℕ} (A : Matrix (Fin m) (Fin m) K8) (B : Matrix (Fin n) (Fin n) K8) :
    Matrix (Fin (m * n)) (Fin (m * n)) K8 :=
  Matrix.reindex finProdFinEquiv finProdFinEquiv (Matrix.kroneckerMap (· * ·) A B)

/-- `torch.mean` of a complex vector: the sum divided by the length. -/
def torchMean (l : List K8) : K8 := K8.ratK (1 / (l.length : ℚ)) * l.sum

/-- Python `str.lower()` (ASCII): lowercase every character. -/
def pyLower (s : String) : String := ⟨s.data.map Char.toLower⟩

/-- The binary digits of `i`, most significant first, as Python's
`format(i, "b")` produces them (at least one digit). -/
def binDigits (i : ℕ) : List Char := Nat.toDigits 2 i

/-- Python `format(i, f"0{width}b")`: binary digits of `i` left-padded
with zeros to `width` characters (never truncated). -/
def binFormat (i width : ℕ) : String :=
  ⟨List.replicate (width - (binDigits i).length) '0' ++ binDigits i⟩

/-- The float inputs of `apply_rotation`: the code computes
`cos = np.cos(angle/2)` and `sin = np.sin(angle/2)` from the angle.  We
abstract the transcendental angle by the pair of these two scalars (the
z-branch exponentials `exp(±i*angle/2)` equal `cos ± i*sin` exactly).
Two calls with the same angle receive the same `Angle` value. -/
structure Angle where
  c : K8
  s : K8

namespace QuantumGates

/-- `self.hadamard_matrix = [[1, 1], [1, -1]] / sqrt(2)` -/
def hadamard_matrix : Matrix (Fin 2) (Fin 2) K8 :=
  K8.invSqrt2 • !![1, 1; 1, -1]

/-- `self.pauli_x = [[0, 1], [1, 0]]` -/
def pauli_x : Matrix (Fin 2) (Fin 2) K8 := !![0, 1; 1, 0]

/-- `self.pauli_y = [[0, -1j], [1j, 0]]` -/
def pauli_y : Matrix (Fin 2) (Fin 2) K8 := !![0, -K8.iK; K8.iK, 0]

/-- `self.pauli_z = [[1, 0], [0, -1]]` -/
def pauli_z : Matrix (Fin 2) (Fin 2) K8 := !![1, 0; 0, -1]

/-- `self.identity = torch.eye(2)` -/
def identity : Matrix (Fin 2) (Fin 2) K8 := 1

/-- `self.s_gate = [[1, 0], [0, 1j]]` -/
def s_gate : Matrix (Fin 2) (Fin 2) K8 := !![1, 0; 0, K8.iK]

/-- `self.t_gate = [[1, 0], [0, exp(1j*pi/4)]]` -/
def t_gate : Matrix (Fin 2) (Fin 2) K8 := !![1, 0; 0, K8.zetaK]

/-- `self.cnot` -/
def cnot : Matrix (Fin 4) (Fin 4) K8 :=
  !![1, 0, 0, 0;
     0, 1, 0, 0;
     0, 0, 0, 1;
     0, 0, 1, 0]

/-- `self.swap` -/
def swap : Matrix (Fin 4) (Fin 4) K8 :=
  !![1, 0, 0, 0;
     0, 0, 1, 0;
     0, 1, 0, 0;
     0, 0, 0, 1]

/-- `apply_hadamard(q_state) = torch.matmul(q_state, self.hadamard_matrix)` -/
def apply_hadamard (q_state : List K8) : Except PyError (List K8) :=
  torchMatmul q_state hadamard_matrix

/-- `apply_pauli_x` -/
def apply_pauli_x (q_state : List K8) : Except PyError (List K8) :=
  torchMatmul q_state pauli_x

/-- `apply_pauli_y` -/
def apply_pauli_y (q_state : List K8) : Except PyError (List K8) :=
  torchMatmul q_state pauli_y

/-- `apply_pauli_z` -/
def apply_pauli_z (q_state : List K8) : Except PyError (List K8) :=
  torchMatmul q_state pauli_z

/-- `apply_s_gate` -/
def apply_s_gate (q_state : List K8) : Except PyError (List K8) :=
  torchMatmul q_state s_gate

/-- `apply_t_gate` -/
def apply_t_gate (q_state : List K8) : Except PyError (List K8) :=
  torchMatmul q_state t_gate

/-- `apply_rotation(q_state, angle, axis)`: branches on `axis.lower()`;
an unrecognised axis raises `ValueError` before any matrix is applied.
The original message is "Axis must be 'x', 'y' or 'z'" (rendered here
without the inner quotes). -/
def apply_rotation (q_state : List K8) (angle : Angle) (axis : String) :
    Except PyError (List K8) :=
  let cos := angle.c
  let sin := angle.s
  if pyLower axis = "x" then
    torchMatmul q_state !![cos, -(K8.iK * sin); -(K8.iK * sin), cos]
  else if pyLower axis = "y" then
    torchMatmul q_state !![cos, -sin; sin, cos]
  else if pyLower axis = "z" then
    torchMatmul q_state !![cos - K8.iK * sin, 0; 0, cos + K8.iK * sin]
  else
    .error (.valueError "Axis must be x, y or z")

/-- `apply_cnot(q_states) = torch.matmul(q_states, self.cnot)` -/
def apply_cnot (q_states : List K8) : Except PyError (List K8) :=
  torchMatmul q_states cnot

/-- `apply_swap` -/
def apply_swap (q_states : List K8) : Except PyError (List K8) :=
  torchMatmul q_states swap

/-- The 4x4 matrix built by `apply_controlled_u`: zeros, then the 2x2
identity written into the top-left block and `u` into the bottom-right
block. -/
def controlled_u_matrix (u : Matrix (Fin 2) (Fin 2) K8) : Matrix (Fin 4) (Fin 4) K8 :=
  Matrix.of fun i j =>
    if h : i.val < 2 ∧ j.val < 2 then
      identity ⟨i.val, h.1⟩ ⟨j.val, h.2⟩
    else if h2 : 2 ≤ i.val ∧ 2 ≤ j.val then
      u ⟨i.val - 2, by have := i.isLt; omega⟩ ⟨j.val - 2, by have := j.isLt; omega⟩
    else 0

/-- `apply_controlled_u(q_states, u_matrix)` -/
def apply_controlled_u (q_states : List K8) (u_matrix : Matrix (Fin 2) (Fin 2) K8) :
    Except PyError (List K8) :=
  torchMatmul q_states (controlled_u_matrix u_matrix)

/-- The 8x8 matrix built by `apply_toffoli`: `torch.eye(8)` with the
last 2x2 block overwritten by Pauli-X. -/
def toffoli_matrix : Matrix (Fin 8) (Fin 8) K8 :=
  Matrix.of fun i j =>
    if h : 6 ≤ i.val ∧ 6 ≤ j.val then
      pauli_x ⟨i.val - 6, by have := i.isLt; omega⟩ ⟨j.val - 6, by have := j.isLt; omega⟩
    else (1 : Matrix (Fin 8) (Fin 8) K8) i j

/-- `apply_toffoli(q_states)` -/
def apply_toffoli (q_states : List K8) : Except PyError (List K8) :=
  torchMatmul q_states toffoli_matrix

/-- `apply_phase(q_state, phase)`: the scalar `ephase` stands for the
float `cmath.exp(1j*phase)`. -/
def apply_phase (q_state : List K8) (ephase : K8) : Except PyError (List K8) :=
  torchMatmul q_state !![1, 0; 0, ephase]

/-- `create_bell_state()`: starts from `[1, 0, 0, 0]`, then applies
`apply_hadamard` to the reshaped `(1, 4)` state (the 2x2 Hadamard against
the 4-dimensional register), then `apply_cnot`. -/
def create_bell_state : Except PyError (List K8) :=
  let state : List K8 := [1, 0, 0, 0]
  match apply_hadamard state with
  | .error e => .error e
  | .ok st => apply_cnot st

/-- `apply_custom_gate(q_state, matrix)` -/
def apply_custom_gate {m k : ℕ} (q_state : List K8) (matrix : Matrix (Fin m) (Fin k) K8) :
    Except PyError (List K8) :=
  torchMatmul q_state matrix

/-- `measure(q_state, shots)`.  `probs = |amplitude|^2` elementwise;
`torch.multinomial(probs, shots, replacement=True)` raises a
RuntimeError when `shots <= 0`; its random draws are modelled by the
explicit list `outs` of sampled indices (the histogram loop is
deterministic in them).  `torch.multinomial` also rejects a probability
vector with nonpositive total mass; that validation concerns the random
draw itself, which is abstracted here, and no claim depends on it.
Frequencies `count/shots` are exact rationals in the embedding. -/
def measure (q_state : List K8) (shots : ℤ) (outs : List ℕ) :
    Except PyError (List (String × ℚ)) :=
  let probs := q_state.map (fun z => z * star z)
  if shots ≤ 0 then
    .error (.runtimeError "cannot sample n_sample less than or equal to zero samples")
  else
    .ok ((List.range probs.length).filterMap (fun i =>
      let binary := binFormat i (Nat.log 2 probs.length)
      let count := outs.count i
      if 0 < count then some (binary, (count : ℚ) / (shots : ℚ)) else none))

/-- The `H^(tensor n)` matrix of `apply_grover_diffusion`: the loop
starts from `hadamard_matrix` and runs `n_qubits - 1` Kronecker
products, so `hN k` is the matrix after `k` iterations, of dimension
`2^(k+1)`. -/
def hN : (k : ℕ) → Matrix (Fin (2 ^ (k + 1))) (Fin (2 ^ (k + 1))) K8
  | 0 => hadamard_matrix
  | k + 1 => kronFin (hN k) hadamard_matrix

/-- `apply_grover_diffusion(q_state)`: `n_qubits = int(log2(len))` (the
floor logarithm), `h_n = H^(tensor n_qubits)` via the loop, apply, flip
each amplitude about the mean of the current state, apply again. -/
def apply_grover_diffusion (q_state : List K8) : Except PyError (List K8) :=
  let n_qubits := Nat.log 2 q_state.length
  let h_n := hN (n_qubits - 1)
  match torchMatmul q_state h_n with
  | .error e => .error e
  | .ok state =>
    let m := torchMean state
    let flipped := state.map (fun a => 2 * m - a)
    torchMatmul flipped h_n

end QuantumGates

open Matrix

/-- Sum of squared magnitudes of the amplitudes, as the (real) element
`sum z * conj z` of the scalar field. -/
def sumNormSq (l : List K8) : K8 := (l.map (fun z => z * star z)).sum

/-- The same quantity for a vector. -/
def dotStar {m : ℕ} (v : Fin m → K8) : K8 := v ⬝ᵥ star v

theorem sumNormSq_ofFn {m : ℕ} (w : Fin m → K8) :
    sumNormSq (List.ofFn w) = dotStar w := by
  rw [sumNormSq, List.map_ofFn, List.sum_ofFn]
  rfl

theorem sumNormSq_asFn {m : ℕ} (s : List K8) (h : s.length = m) :
    sumNormSq s = dotStar (asFn s h) := by
  subst h
  conv_lhs => rw [← List.ofFn_get s]
  rw [sumNormSq_ofFn]
  rfl

theorem dotStar_vecMul {m : ℕ} (v : Fin m → K8) (M : Matrix (Fin m) (Fin m) K8)
    (hM : M * Mᴴ = 1) : dotStar (v ᵥ* M) = dotStar v := by
  unfold dotStar
  rw [Matrix.star_vecMul, Matrix.dotProduct_mulVec, Matrix.vecMul_vecMul, hM,
    Matrix.vecMul_one]

theorem torchMatmul_ok {m k : ℕ} (s : List K8) (M : Matrix (Fin m) (Fin k) K8)
    (h : s.length = m) :
    torchMatmul s M = .ok (List.ofFn (fun j => (asFn s h ᵥ* M) j)) := by
  rw [torchMatmul, dif_pos h]

theorem torchMatmul_normPres {m : ℕ} (s : List K8) (M : Matrix (Fin m) (Fin m) K8)
    (h : s.length = m) (hM : M * Mᴴ = 1) :
    ∃ t, torchMatmul s M = .ok t ∧ sumNormSq t = sumNormSq s ∧ t.length = m := by
  refine ⟨_, torchMatmul_ok s M h, ?_, by simp⟩
  rw [sumNormSq_ofFn, sumNormSq_asFn s h]
  exact dotStar_vecMul _ M hM

namespace QuantumGates

theorem hadamard_unitary : hadamard_matrix * hadamard_matrixᴴ = 1 := by
  refine Matrix.ext fun i j => ?_
  fin_cases i <;> fin_cases j <;>
    norm_num [hadamard_matrix, Matrix.mul_apply, Matrix.one_apply, Fin.sum_univ_two,
      K8.invSqrt2, K8.ext_iff]

theorem pauli_x_unitary : pauli_x * pauli_xᴴ = 1 := by
  refine Matrix.ext fun i j => ?_
  fin_cases i <;> fin_cases j <;>
    norm_num [pauli_x, Matrix.mul_apply, Matrix.one_apply, Fin.sum_univ_two, K8.ext_iff]

theorem pauli_y_unitary : pauli_y * pauli_yᴴ = 1 := by
  refine Matrix.ext fun i j => ?_
  fin_cases i <;> fin_cases j <;>
    norm_num [pauli_y, Matrix.mul_apply, Matrix.one_apply, Fin.sum_univ_two, K8.iK,
      K8.ext_iff]

theorem pauli_z_unitary : pauli_z * pauli_zᴴ = 1 := by
  refine Matrix.ext fun i j => ?_
  fin_cases i <;> fin_cases j <;>
    norm_num [pauli_z, Matrix.mul_apply, Matrix.one_apply, Fin.sum_univ_two, K8.ext_iff]

theorem s_gate_unitary : s_gate * s_gateᴴ = 1 := by
  refine Matrix.ext fun i j => ?_
  fin_cases i <;> fin_cases j <;>
    norm_num [s_gate, Matrix.mul_apply, Matrix.one_apply, Fin.sum_univ_two, K8.iK,
      K8.ext_iff]

theorem t_gate_unitary : t_gate * t_gateᴴ = 1 := by
  refine Matrix.ext fun i j => ?_
  fin_cases i <;> fin_cases j <;>
    norm_num [t_gate, Matrix.mul_apply, Matrix.one_apply, Fin.sum_univ_two, K8.zetaK,
      K8.ext_iff]

theorem identity_unitary : identity * identityᴴ = 1 := by
  rw [identity, Matrix.conjTranspose_one, mul_one]

theorem cnot_unitary : cnot * cnotᴴ = 1 := by
  refine Matrix.ext fun i j => ?_
  fin_cases i <;> fin_cases j <;>
    norm_num [cnot, Matrix.mul_apply, Matrix.one_apply, Fin.sum_univ_four, K8.ext_iff] <;>
    decide

theorem swap_unitary : swap * swapᴴ = 1 := by
  refine Matrix.ext fun i j => ?_
  fin_cases i <;> fin_cases j <;>
    norm_num [swap, Matrix.mul_apply, Matrix.one_apply, Fin.sum_univ_four, K8.ext_iff] <;>
    decide

theorem hadamard_invol : hadamard_matrix * hadamard_matrix = 1 := by
  refine Matrix.ext fun i j => ?_
  fin_cases i <;> fin_cases j <;>
    norm_num [hadamard_matrix, Matrix.mul_apply, Matrix.one_apply, Fin.sum_univ_two,
      K8.invSqrt2, K8.ext_iff]

theorem cnot_invol : cnot * cnot = 1 := by
  refine Matrix.ext fun i j => ?_
  fin_cases i <;> fin_cases j <;>
    norm_num [cnot, Matrix.mul_apply, Matrix.one_apply, Fin.sum_univ_four, K8.ext_iff] <;>
    decide

theorem swap_invol : swap * swap = 1 := by
  refine Matrix.ext fun i j => ?_
  fin_cases i <;> fin_cases j <;>
    norm_num [swap, Matrix.mul_apply, Matrix.one_apply, Fin.sum_univ_four, K8.ext_iff] <;>
    decide

end QuantumGates

/-- The 8 basis states of a 3-qubit register: amplitude 1 at index `i`,
0 elsewhere. -/
def e8 (i : Fin 8) : List K8 := List.ofFn (fun j : Fin 8 => if j = i then 1 else 0)

/-- The fixed gate library named by the normalization-preservation
property: Hadamard, Pauli-X/Y/Z, S, T, identity, CNOT, SWAP. -/
inductive LibGate where
  | hadamard
  | pauliX
  | pauliY
  | pauliZ
  | sGate
  | tGate
  | ident
  | cnotG
  | swapG
deriving DecidableEq

/-- The register dimension each library gate acts on. -/
def LibGate.dim : LibGate → ℕ
  | .cnotG => 4
  | .swapG => 4
  | _ => 2

/-- Applying a library gate through the simulator entry points (the
identity constant, which has no dedicated apply method, goes through
`apply_custom_gate`). -/
def LibGate.apply : LibGate → List K8 → Except PyError (List K8)
  | .hadamard, s => QuantumGates.apply_hadamard s
  | .pauliX, s => QuantumGates.apply_pauli_x s
  | .pauliY, s => QuantumGates.apply_pauli_y s
  | .pauliZ, s => QuantumGates.apply_pauli_z s
  | .sGate, s => QuantumGates.apply_s_gate s
  | .tGate, s => QuantumGates.apply_t_gate s
  | .ident, s => QuantumGates.apply_custom_gate s QuantumGates.identity
  | .cnotG, s => QuantumGates.apply_cnot s
  | .swapG, s => QuantumGates.apply_swap s

theorem asFn_ofFn {m : ℕ} (w : Fin m → K8) (h : (List.ofFn w).length = m) :
    asFn (List.ofFn w) h = w := by
  funext i
  simp [asFn, List.get_ofFn]

theorem ofFn_asFn {m : ℕ} (s : List K8) (h : s.length = m) :
    List.ofFn (asFn s h) = s := by
  subst h
  exact List.ofFn_get s

theorem torchMatmul_twice {m : ℕ} (s : List K8) (M N : Matrix (Fin m) (Fin m) K8)
    (h : s.length = m) (hMN : M * N = 1) :
    (torchMatmul s M).bind (fun t => torchMatmul t N) = .ok s := by
  rw [torchMatmul_ok s M h]
  show torchMatmul (List.ofFn fun j => (asFn s h ᵥ* M) j) N = .ok s
  rw [torchMatmul_ok _ N (by simp), asFn_ofFn]
  conv_lhs => rw [show (fun j => ((asFn s h ᵥ* M) ᵥ* N) j) = asFn s h from by
    rw [Matrix.vecMul_vecMul, hMN, Matrix.vecMul_one]]
  rw [ofFn_asFn]

theorem basis_vecMul {n : ℕ} (i : Fin n) (M : Matrix (Fin n) (Fin n) K8) :
    (fun k => if k = i then (1 : K8) else 0) ᵥ* M = M i := by
  funext j
  simp [Matrix.vecMul, Matrix.dotProduct, ite_mul, Finset.sum_ite_eq']

theorem toffoli_basis (i t : Fin 8)
    (hrow : QuantumGates.toffoli_matrix i = fun j => if j = t then (1 : K8) else 0) :
    QuantumGates.apply_toffoli (e8 i) = .ok (e8 t) := by
  unfold QuantumGates.apply_toffoli
  rw [torchMatmul_ok _ _ (by simp [e8])]
  rw [show asFn (e8 i) (by simp [e8]) = fun k => if k = i then (1 : K8) else 0 from
    asFn_ofFn _ _]
  rw [show (fun j => ((fun k => if k = i then (1 : K8) else 0) ᵥ*
      QuantumGates.toffoli_matrix) j) = fun j => if j = t then (1 : K8) else 0 from by
    rw [basis_vecMul, hrow]]
  rfl

/-- The gate matrix each library gate multiplies the state by. -/
def LibGate.matrix : (g : LibGate) → Matrix (Fin g.dim) (Fin g.dim) K8
  | .hadamard => QuantumGates.hadamard_matrix
  | .pauliX => QuantumGates.pauli_x
  | .pauliY => QuantumGates.pauli_y
  | .pauliZ => QuantumGates.pauli_z
  | .sGate => QuantumGates.s_gate
  | .tGate => QuantumGates.t_gate
  | .ident => QuantumGates.identity
  | .cnotG => QuantumGates.cnot
  | .swapG => QuantumGates.swap

theorem LibGate.apply_eq (g : LibGate) (s : List K8) :
    g.apply s = torchMatmul s g.matrix := by
  cases g <;> rfl

theorem LibGate.matrix_unitary (g : LibGate) : g.matrix * g.matrixᴴ = 1 := by
  cases g
  exacts [QuantumGates.hadamard_unitary, QuantumGates.pauli_x_unitary,
    QuantumGates.pauli_y_unitary, QuantumGates.pauli_z_unitary,
    QuantumGates.s_gate_unitary, QuantumGates.t_gate_unitary,
    QuantumGates.identity_unitary, QuantumGates.cnot_unitary,
    QuantumGates.swap_unitary]

/-- Claim C1 (code bug): `create_bell_state()` does not return the Bell
pair.  It initialises `[1, 0, 0, 0]` and then applies `apply_hadamard`,
which multiplies the 4-dimensional register by the 2x2 Hadamard matrix;
`torch.matmul` raises its shape-mismatch RuntimeError there, so no state
(and in particular no Bell pair measurable as "00"/"11") is ever
returned. -/
theorem create_bell_state_raises :
    QuantumGates.create_bell_state =
      .error (.runtimeError "mat1 and mat2 shapes cannot be multiplied") := rfl

/-- Claim C2: for every state, every angle and every axis string whose
lowercasing is none of "x", "y", "z", `apply_rotation` raises the
ValueError (Python invalid-argument error) and returns no state; no
default axis is applied. -/
theorem rotation_unknown_axis_errors (s : List K8) (angle : Angle) (axis : String)
    (hx : pyLower axis ≠ "x") (hy : pyLower axis ≠ "y") (hz : pyLower axis ≠ "z") :
    QuantumGates.apply_rotation s angle axis =
      .error (.valueError "Axis must be x, y or z") := by
  simp only [QuantumGates.apply_rotation, if_neg hx, if_neg hy, if_neg hz]

/-- Claim C2 witness at axis "w". -/
theorem rotation_unknown_axis_errors_witness :
    (pyLower "w" ≠ "x" ∧ pyLower "w" ≠ "y" ∧ pyLower "w" ≠ "z") ∧
    QuantumGates.apply_rotation [] ⟨1, 0⟩ "w" =
      .error (.valueError "Axis must be x, y or z") :=
  ⟨⟨by decide, by decide, by decide⟩,
   rotation_unknown_axis_errors [] ⟨1, 0⟩ "w" (by decide) (by decide) (by decide)⟩

/-- Claim C3: for every state and every `shots <= 0`, `measure` raises
the error of `torch.multinomial` (a RuntimeError, the typed error the
spec taxonomy classifies as InvalidArgument) at the point of the call,
whatever the random draws would have been; no histogram is returned. -/
theorem measure_nonpositive_shots_errors (s : List K8) (shots : ℤ) (outs : List ℕ)
    (h : shots ≤ 0) :
    QuantumGates.measure s shots outs =
      .error (.runtimeError "cannot sample n_sample less than or equal to zero samples") := by
  simp only [QuantumGates.measure, if_pos h]

/-- Claim C3 witness at shots = 0. -/
theorem measure_nonpositive_shots_errors_witness :
    ((0 : ℤ) ≤ 0) ∧
    QuantumGates.measure [1, 0] 0 [] =
      .error (.runtimeError "cannot sample n_sample less than or equal to zero samples") :=
  ⟨le_refl 0, measure_nonpositive_shots_errors [1, 0] 0 [] (le_refl 0)⟩

/-- Claim C4: every fixed-library gate (Hadamard, Pauli-X/Y/Z, S, T,
identity, CNOT, SWAP) applied to a normalized state of matching
dimension returns a normalized state (exactly, over the exact
arithmetic of the embedding). -/
theorem libgate_preserves_normalization (g : LibGate) (s : List K8)
    (hlen : s.length = g.dim) (hnorm : sumNormSq s = 1) :
    ∃ t, g.apply s = .ok t ∧ sumNormSq t = 1 := by
  rw [LibGate.apply_eq]
  obtain ⟨t, h1, h2, _⟩ := torchMatmul_normPres s g.matrix hlen (LibGate.matrix_unitary g)
  exact ⟨t, h1, by rw [h2, hnorm]⟩

/-- Claim C4 witness: the Hadamard gate on the normalized state `[1, 0]`. -/
theorem libgate_preserves_normalization_witness :
    ([(1 : K8), 0].length = LibGate.hadamard.dim ∧ sumNormSq [(1 : K8), 0] = 1) ∧
    ∃ t, LibGate.hadamard.apply [(1 : K8), 0] = .ok t ∧ sumNormSq t = 1 :=
  ⟨⟨rfl, by simp [sumNormSq]⟩,
   libgate_preserves_normalization .hadamard [(1 : K8), 0] rfl (by simp [sumNormSq])⟩

/-- Claim C6: Toffoli on each of the 8 three-qubit basis states is the
classical controlled-controlled-NOT truth table: indices 0 to 5 are
fixed, 6 ("110") maps to 7 ("111") and 7 ("111") maps to 6 ("110"). -/
theorem toffoli_truth_table :
    QuantumGates.apply_toffoli (e8 0) = .ok (e8 0) ∧
    QuantumGates.apply_toffoli (e8 1) = .ok (e8 1) ∧
    QuantumGates.apply_toffoli (e8 2) = .ok (e8 2) ∧
    QuantumGates.apply_toffoli (e8 3) = .ok (e8 3) ∧
    QuantumGates.apply_toffoli (e8 4) = .ok (e8 4) ∧
    QuantumGates.apply_toffoli (e8 5) = .ok (e8 5) ∧
    QuantumGates.apply_toffoli (e8 6) = .ok (e8 7) ∧
    QuantumGates.apply_toffoli (e8 7) = .ok (e8 6) := by
  refine ⟨?_, ?_, ?_, ?_, ?_, ?_, ?_, ?_⟩
  all_goals
    apply toffoli_basis
    funext j
    fin_cases j <;> decide

/-- Claim C7: Hadamard is an involution on normalized 2-dimensional
states, and CNOT and SWAP are involutions on 4-dimensional states,
under the simulator application convention. -/
theorem hadamard_cnot_swap_involutions (s2 s4 : List K8) (h2 : s2.length = 2)
    (_hn : sumNormSq s2 = 1) (h4 : s4.length = 4) :
    (QuantumGates.apply_hadamard s2).bind QuantumGates.apply_hadamard = .ok s2 ∧
    (QuantumGates.apply_cnot s4).bind QuantumGates.apply_cnot = .ok s4 ∧
    (QuantumGates.apply_swap s4).bind QuantumGates.apply_swap = .ok s4 :=
  ⟨torchMatmul_twice s2 _ _ h2 QuantumGates.hadamard_invol,
   torchMatmul_twice s4 _ _ h4 QuantumGates.cnot_invol,
   torchMatmul_twice s4 _ _ h4 QuantumGates.swap_invol⟩

/-- Claim C7 witness: the states `[1, 0]` and `[1, 0, 0, 0]`. -/
theorem hadamard_cnot_swap_involutions_witness :
    ([(1 : K8), 0].length = 2 ∧ sumNormSq [(1 : K8), 0] = 1 ∧
      [(1 : K8), 0, 0, 0].length = 4) ∧
    ((QuantumGates.apply_hadamard [(1 : K8), 0]).bind QuantumGates.apply_hadamard =
        .ok [(1 : K8), 0] ∧
      (QuantumGates.apply_cnot [(1 : K8), 0, 0, 0]).bind QuantumGates.apply_cnot =
        .ok [(1 : K8), 0, 0, 0] ∧
      (QuantumGates.apply_swap [(1 : K8), 0, 0, 0]).bind QuantumGates.apply_swap =
        .ok [(1 : K8), 0, 0, 0]) :=
  ⟨⟨rfl, by simp [sumNormSq], rfl⟩,
   hadamard_cnot_swap_involutions _ _ rfl (by simp [sumNormSq]) rfl⟩

/-- Claim C9: `apply_controlled_u` with the Pauli-X matrix coincides
with `apply_cnot` on every two-qubit state, because the block-diagonal
matrix it builds equals the library CNOT matrix. -/
theorem controlled_u_x_eq_cnot (s : List K8) (_h : s.length = 4) :
    QuantumGates.apply_controlled_u s QuantumGates.pauli_x = QuantumGates.apply_cnot s := by
  unfold QuantumGates.apply_controlled_u QuantumGates.apply_cnot
  rw [show QuantumGates.controlled_u_matrix QuantumGates.pauli_x = QuantumGates.cnot from by
    refine Matrix.ext fun i j => ?_
    fin_cases i <;> fin_cases j <;> decide]

/-- Claim C9 witness: the state `[1, 0, 0, 0]`. -/
theorem controlled_u_x_eq_cnot_witness :
    [(1 : K8), 0, 0, 0].length = 4 ∧
    QuantumGates.apply_controlled_u [(1 : K8), 0, 0, 0] QuantumGates.pauli_x =
      QuantumGates.apply_cnot [(1 : K8), 0, 0, 0] :=
  ⟨rfl, controlled_u_x_eq_cnot _ rfl⟩

theorem apply_rotation_x (s : List K8) (angle : Angle) (axis : String)
    (h : pyLower axis = "x") :
    QuantumGates.apply_rotation s angle axis =
      torchMatmul s !![angle.c, -(K8.iK * angle.s); -(K8.iK * angle.s), angle.c] := by
  simp only [QuantumGates.apply_rotation, h]
  rw [if_true]

theorem apply_rotation_y (s : List K8) (angle : Angle) (axis : String)
    (h : pyLower axis = "y") :
    QuantumGates.apply_rotation s angle axis =
      torchMatmul s !![angle.c, -angle.s; angle.s, angle.c] := by
  simp only [QuantumGates.apply_rotation, h]
  rw [if_neg (by decide), if_true]

theorem apply_rotation_z (s : List K8) (angle : Angle) (axis : String)
    (h : pyLower axis = "z") :
    QuantumGates.apply_rotation s angle axis =
      torchMatmul s !![angle.c - K8.iK * angle.s, 0; 0, angle.c + K8.iK * angle.s] := by
  simp only [QuantumGates.apply_rotation, h]
  rw [if_neg (by decide), if_neg (by decide), if_true]

/-- Claim C10: axis matching in `apply_rotation` is case-insensitive:
for every state and angle, uppercase "X"/"Y"/"Z" take the same branch
as "x"/"y"/"z" (via `.lower()`) and produce the same result; on a
2-dimensional state they are accepted (a state is returned) rather than
rejected as unknown. -/
theorem rotation_axis_case_insensitive (s : List K8) (angle : Angle) :
    (QuantumGates.apply_rotation s angle "X" = QuantumGates.apply_rotation s angle "x" ∧
     QuantumGates.apply_rotation s angle "Y" = QuantumGates.apply_rotation s angle "y" ∧
     QuantumGates.apply_rotation s angle "Z" = QuantumGates.apply_rotation s angle "z") ∧
    (s.length = 2 →
      (∃ t, QuantumGates.apply_rotation s angle "X" = .ok t) ∧
      (∃ t, QuantumGates.apply_rotation s angle "Y" = .ok t) ∧
      (∃ t, QuantumGates.apply_rotation s angle "Z" = .ok t)) := by
  have eX := apply_rotation_x s angle "X" (by decide)
  have ex := apply_rotation_x s angle "x" (by decide)
  have eY := apply_rotation_y s angle "Y" (by decide)
  have ey := apply_rotation_y s angle "y" (by decide)
  have eZ := apply_rotation_z s angle "Z" (by decide)
  have ez := apply_rotation_z s angle "z" (by decide)
  refine ⟨⟨?_, ?_, ?_⟩, fun h => ⟨?_, ?_, ?_⟩⟩
  · rw [eX, ex]
  · rw [eY, ey]
  · rw [eZ, ez]
  · exact ⟨_, by rw [eX]; exact torchMatmul_ok s _ h⟩
  · exact ⟨_, by rw [eY]; exact torchMatmul_ok s _ h⟩
  · exact ⟨_, by rw [eZ]; exact torchMatmul_ok s _ h⟩

/-- Claim C10 witness: the state `[1, 0]`. -/
theorem rotation_axis_case_insensitive_witness :
    ((QuantumGates.apply_rotation [(1 : K8), 0] ⟨1, 0⟩ "X" =
        QuantumGates.apply_rotation [(1 : K8), 0] ⟨1, 0⟩ "x" ∧
      QuantumGates.apply_rotation [(1 : K8), 0] ⟨1, 0⟩ "Y" =
        QuantumGates.apply_rotation [(1 : K8), 0] ⟨1, 0⟩ "y" ∧
      QuantumGates.apply_rotation [(1 : K8), 0] ⟨1, 0⟩ "Z" =
        QuantumGates.apply_rotation [(1 : K8), 0] ⟨1, 0⟩ "z") ∧
    ([(1 : K8), 0].length = 2 →
      (∃ t, QuantumGates.apply_rotation [(1 : K8), 0] ⟨1, 0⟩ "X" = .ok t) ∧
      (∃ t, QuantumGates.apply_rotation [(1 : K8), 0] ⟨1, 0⟩ "Y" = .ok t) ∧
      (∃ t, QuantumGates.apply_rotation [(1 : K8), 0] ⟨1, 0⟩ "Z" = .ok t))) ∧
    ∃ t, QuantumGates.apply_rotation [(1 : K8), 0] ⟨1, 0⟩ "X" = .ok t :=
  ⟨rotation_axis_case_insensitive [(1 : K8), 0] ⟨1, 0⟩,
   (rotation_axis_case_insensitive [(1 : K8), 0] ⟨1, 0⟩).2 rfl |>.1⟩

theorem kronFin_mul {m n : ℕ} (A A2 : Matrix (Fin m) (Fin m) K8)
    (B B2 : Matrix (Fin n) (Fin n) K8) :
    kronFin A B * kronFin A2 B2 = kronFin (A * A2) (B * B2) := by
  unfold kronFin
  rw [Matrix.reindex_apply, Matrix.reindex_apply, Matrix.reindex_apply,
    Matrix.submatrix_mul_equiv, Matrix.mul_kronecker_mul]

theorem kronFin_conjTranspose {m n : ℕ} (A : Matrix (Fin m) (Fin m) K8)
    (B : Matrix (Fin n) (Fin n) K8) :
    (kronFin A B)ᴴ = kronFin Aᴴ Bᴴ := by
  unfold kronFin
  rw [Matrix.conjTranspose_reindex]
  congr 1
  refine Matrix.ext fun i j => ?_
  obtain ⟨i1, i2⟩ := i
  obtain ⟨j1, j2⟩ := j
  simp [Matrix.conjTranspose_apply, Matrix.kroneckerMap_apply, star_mul']

theorem kronFin_one {m n : ℕ} :
    kronFin (1 : Matrix (Fin m) (Fin m) K8) (1 : Matrix (Fin n) (Fin n) K8) = 1 := by
  unfold kronFin
  rw [Matrix.one_kronecker_one, Matrix.reindex_apply, Matrix.submatrix_one_equiv]

theorem hN_unitary : ∀ k : ℕ, QuantumGates.hN k * (QuantumGates.hN k)ᴴ = 1
  | 0 => QuantumGates.hadamard_unitary
  | k + 1 => by
    show kronFin (QuantumGates.hN k) QuantumGates.hadamard_matrix *
      (kronFin (QuantumGates.hN k) QuantumGates.hadamard_matrix)ᴴ = 1
    rw [kronFin_conjTranspose, kronFin_mul, hN_unitary k,
      QuantumGates.hadamard_unitary, kronFin_one]

theorem dotStar_meanFlip {m : ℕ} (hm : (m : ℚ) ≠ 0) (w : Fin m → K8) (mu : K8)
    (hmu : mu = K8.ratK (1 / (m : ℚ)) * ∑ i, w i) :
    dotStar (fun i => 2 * mu - w i) = dotStar w := by
  have hsum : K8.ratK (m : ℚ) * mu = ∑ i, w i := by
    rw [hmu, ← mul_assoc, ← K8.ratK_mul, mul_one_div, div_self hm, K8.ratK_one, one_mul]
  have hstar : ∀ z z2 : K8, (z - z2) * star (z - z2)
      = z * star z - z * star z2 - z2 * star z + z2 * star z2 := by
    intro z z2
    rw [star_sub]
    ring
  unfold dotStar Matrix.dotProduct
  simp only [Pi.star_apply]
  calc ∑ i, (2 * mu - w i) * star (2 * mu - w i)
      = ∑ i, ((2 * mu) * star (2 * mu) - (2 * mu) * star (w i)
          - w i * star (2 * mu) + w i * star (w i)) :=
        Finset.sum_congr rfl fun i _ => hstar (2 * mu) (w i)
    _ = ∑ i, w i * star (w i) := by
        rw [Finset.sum_add_distrib, Finset.sum_sub_distrib, Finset.sum_sub_distrib,
          Finset.sum_const, ← Finset.mul_sum, ← Finset.sum_mul, Finset.card_univ,
          Fintype.card_fin, ← star_sum, ← hsum]
        rw [nsmul_eq_mul, K8.natCast_eq_ratK]
        rw [show star (K8.ratK (m : ℚ) * mu) = K8.ratK (m : ℚ) * star mu from by
          rw [star_mul', K8.star_ratK]]
        rw [show star (2 * mu) = 2 * star mu from by rw [star_mul', star_ofNat]]
        ring

theorem sumNormSq_meanFlip {m : ℕ} (l : List K8) (hl : l.length = m) (hm : (m : ℚ) ≠ 0) :
    sumNormSq (l.map (fun a => 2 * torchMean l - a)) = sumNormSq l := by
  obtain ⟨w, rfl⟩ : ∃ w : Fin m → K8, l = List.ofFn w :=
    ⟨asFn l hl, (ofFn_asFn l hl).symm⟩
  have hmean : torchMean (List.ofFn w) = K8.ratK (1 / (m : ℚ)) * ∑ i, w i := by
    rw [torchMean, List.length_ofFn, List.sum_ofFn]
  rw [List.map_ofFn, sumNormSq_ofFn, sumNormSq_ofFn]
  exact dotStar_meanFlip hm w _ hmean

/-- Claim C5: `apply_grover_diffusion` on a normalized state of
dimension `2^n` (n at least 1) — apply `H^(tensor n)`, flip each
amplitude about the current mean, apply `H^(tensor n)` again — returns
a normalized state. -/
theorem grover_diffusion_preserves_normalization (n : ℕ) (hn : 1 ≤ n) (s : List K8)
    (hlen : s.length = 2 ^ n) (hnorm : sumNormSq s = 1) :
    ∃ t, QuantumGates.apply_grover_diffusion s = .ok t ∧ sumNormSq t = 1 := by
  obtain ⟨k, rfl⟩ : ∃ k, n = k + 1 := ⟨n - 1, by omega⟩
  have hlog : Nat.log 2 s.length = k + 1 := by
    rw [hlen]
    exact Nat.log_pow (by norm_num) _
  have hm : ((2 ^ (k + 1) : ℕ) : ℚ) ≠ 0 := by
    exact_mod_cast pow_ne_zero _ (two_ne_zero)
  simp only [QuantumGates.apply_grover_diffusion]
  rw [show Nat.log 2 s.length - 1 = k from by omega]
  obtain ⟨st, hst, hstnorm, hstlen⟩ :=
    torchMatmul_normPres s (QuantumGates.hN k) hlen (hN_unitary k)
  rw [hst]
  obtain ⟨t, ht, htnorm, _⟩ :=
    torchMatmul_normPres (st.map (fun a => 2 * torchMean st - a)) (QuantumGates.hN k)
      (by simpa using hstlen) (hN_unitary k)
  refine ⟨t, ht, ?_⟩
  rw [htnorm, sumNormSq_meanFlip st hstlen hm, hstnorm, hnorm]

/-- Claim C5 witness: the normalized 2-dimensional state `[1, 0]` (n = 1). -/
theorem grover_diffusion_preserves_normalization_witness :
    (1 ≤ 1 ∧ [(1 : K8), 0].length = 2 ^ 1 ∧ sumNormSq [(1 : K8), 0] = 1) ∧
    ∃ t, QuantumGates.apply_grover_diffusion [(1 : K8), 0] = .ok t ∧ sumNormSq t = 1 :=
  ⟨⟨le_refl 1, rfl, by simp [sumNormSq]⟩,
   grover_diffusion_preserves_normalization 1 (le_refl 1) [(1 : K8), 0] rfl
     (by simp [sumNormSq])⟩

theorem sum_map_range_eq (n : ℕ) (f : ℕ → ℚ) :
    ((List.range n).map f).sum = ∑ i ∈ Finset.range n, f i := by
  induction n with
  | zero => rfl
  | succ n ih =>
    rw [List.range_succ, List.map_append, List.sum_append, Finset.sum_range_succ, ih]
    simp

theorem sum_count_range (outs : List ℕ) (len : ℕ) (hmem : ∀ o ∈ outs, o < len) :
    ∑ i ∈ Finset.range len, (outs.count i : ℚ) = outs.length := by
  induction outs with
  | nil => simp
  | cons a t ih =>
    have ha : a < len := hmem a (List.mem_cons_self a t)
    have ht : ∀ o ∈ t, o < len := fun o ho => hmem o (List.mem_cons_of_mem a ho)
    calc ∑ i ∈ Finset.range len, ((a :: t).count i : ℚ)
        = ∑ i ∈ Finset.range len, ((t.count i : ℚ) + if a = i then 1 else 0) :=
          Finset.sum_congr rfl fun i _ => by
            rw [List.count_cons]
            simp only [beq_iff_eq]
            push_cast
            rfl
      _ = (∑ i ∈ Finset.range len, (t.count i : ℚ))
            + ∑ i ∈ Finset.range len, (if a = i then (1 : ℚ) else 0) :=
          Finset.sum_add_distrib
      _ = ((a :: t).length : ℚ) := by
          rw [ih ht, Finset.sum_ite_eq (Finset.range len) a (fun _ => (1 : ℚ)),
            if_pos (Finset.mem_range.mpr ha)]
          push_cast [List.length_cons]
          ring

theorem sum_filterMap_ite {α : Type} (l : List α) (c : α → Prop) [DecidablePred c]
    (v : α → ℚ) :
    (l.filterMap (fun a => if c a then some (v a) else none)).sum
      = (l.map (fun a => if c a then v a else 0)).sum := by
  induction l with
  | nil => rfl
  | cons a t ih =>
    by_cases h : c a <;> simp [List.filterMap_cons, h, ih]

/-- Claim C8: for any state of length `2^n`, positive `shots`, and any
sequence of `shots` sampled indices inside the index range, `measure`
returns the histogram whose entries are exactly the zero-padded width-n
binary labels of the indices sampled at least once, each mapped to
`count/shots` in the half-open interval (0, 1], with all the recorded
frequencies summing to 1; unsampled indices are absent. -/
theorem measure_histogram_exact (n : ℕ) (_hn : 1 ≤ n) (s : List K8) (hs : s.length = 2 ^ n)
    (shots : ℤ) (hshots : 1 ≤ shots) (outs : List ℕ) (hcard : (outs.length : ℤ) = shots)
    (hmem : ∀ o ∈ outs, o < s.length) :
    ∃ r, QuantumGates.measure s shots outs = .ok r ∧
      (∀ p ∈ r, ∃ i, i < s.length ∧ 1 ≤ outs.count i ∧
        p = (binFormat i n, (outs.count i : ℚ) / (shots : ℚ))) ∧
      (∀ i, i < s.length → 1 ≤ outs.count i →
        (binFormat i n, (outs.count i : ℚ) / (shots : ℚ)) ∈ r) ∧
      (∀ p ∈ r, 0 < p.2 ∧ p.2 ≤ 1) ∧
      (r.map Prod.snd).sum = 1 := by
  have hpos : ¬shots ≤ 0 := by omega
  have hshotsQ : (0 : ℚ) < (shots : ℚ) := by exact_mod_cast (by omega : (0 : ℤ) < shots)
  simp only [QuantumGates.measure, if_neg hpos, List.length_map]
  rw [hs, Nat.log_pow (by norm_num : 1 < 2)]
  refine ⟨_, rfl, ?_, ?_, ?_, ?_⟩
  · intro p hp
    rw [List.mem_filterMap] at hp
    obtain ⟨i, hi, hfi⟩ := hp
    rw [List.mem_range] at hi
    split_ifs at hfi with hc
    rw [Option.some_inj] at hfi
    exact ⟨i, by omega, by omega, hfi.symm⟩
  · intro i hi hcount
    rw [List.mem_filterMap]
    refine ⟨i, List.mem_range.mpr (by omega), ?_⟩
    rw [if_pos (by omega)]
  · intro p hp
    rw [List.mem_filterMap] at hp
    obtain ⟨i, hi, hfi⟩ := hp
    split_ifs at hfi with hc
    rw [Option.some_inj] at hfi
    have hp2 : p.2 = (outs.count i : ℚ) / (shots : ℚ) := by rw [← hfi]
    constructor
    · rw [hp2]
      apply div_pos _ hshotsQ
      exact_mod_cast hc
    · rw [hp2, div_le_one hshotsQ]
      have hle : outs.count i ≤ outs.length := List.count_le_length _ _
      have : ((outs.count i : ℕ) : ℚ) ≤ ((outs.length : ℕ) : ℚ) := by exact_mod_cast hle
      rw [show ((outs.length : ℕ) : ℚ) = (shots : ℚ) from by exact_mod_cast hcard] at this
      exact this
  · rw [List.map_filterMap]
    have hmap : ∀ i : ℕ, (Option.map Prod.snd
        (if 0 < outs.count i then
          some (binFormat i n, (outs.count i : ℚ) / (shots : ℚ)) else none))
        = (if 0 < outs.count i then some ((outs.count i : ℚ) / (shots : ℚ)) else none) := by
      intro i
      split_ifs <;> rfl
    simp only [hmap]
    rw [sum_filterMap_ite]
    have hdrop : ∀ i ∈ List.range (2 ^ n),
        (if 0 < outs.count i then (outs.count i : ℚ) / (shots : ℚ) else 0)
          = (outs.count i : ℚ) / (shots : ℚ) := by
      intro i _
      split_ifs with h
      · rfl
      · rw [show outs.count i = 0 from by omega]
        simp
    rw [List.map_congr_left hdrop, sum_map_range_eq, ← Finset.sum_div,
      sum_count_range outs _ (fun o ho => by rw [← hs]; exact hmem o ho),
      show ((outs.length : ℕ) : ℚ) = (shots : ℚ) from by exact_mod_cast hcard]
    exact div_self (ne_of_gt hshotsQ)

/-- Claim C8 witness: the state `[1, 0]` (n = 1), one shot sampling
index 0. -/
theorem measure_histogram_exact_witness :
    (1 ≤ 1 ∧ [(1 : K8), 0].length = 2 ^ 1 ∧ (1 : ℤ) ≤ 1 ∧
      (([0] : List ℕ).length : ℤ) = 1 ∧ ∀ o ∈ ([0] : List ℕ), o < [(1 : K8), 0].length) ∧
    ∃ r, QuantumGates.measure [(1 : K8), 0] 1 [0] = .ok r ∧
      (∀ p ∈ r, ∃ i, i < [(1 : K8), 0].length ∧ 1 ≤ ([0] : List ℕ).count i ∧
        p = (binFormat i 1, (([0] : List ℕ).count i : ℚ) / ((1 : ℤ) : ℚ))) ∧
      (∀ i, i < [(1 : K8), 0].length → 1 ≤ ([0] : List ℕ).count i →
        (binFormat i 1, (([0] : List ℕ).count i : ℚ) / ((1 : ℤ) : ℚ)) ∈ r) ∧
      (∀ p ∈ r, 0 < p.2 ∧ p.2 ≤ 1) ∧
      (r.map Prod.snd).sum = 1 :=
  ⟨⟨le_refl 1, rfl, le_refl 1, rfl, by decide⟩,
   measure_histogram_exact 1 (le_refl 1) [(1 : K8), 0] rfl 1 (le_refl 1) [0] rfl
     (by decide)⟩
